import Mathlib

/-!
Shallow embedding of the doubly linked list library in `src/lib.rs`.

The Rust code manipulates heap-allocated nodes through raw pointers
(`NonNull<Node<T>>`).  We model the heap as a list of slots, where a slot
holds `some node` when the allocation is live and `none` once the node's
storage has been reclaimed (`Box::from_raw` followed by drop).  A raw
pointer is the index of a slot.  Allocation (`Box::leak(Box::new _)`)
appends a fresh slot at the end of the heap.  Dereferencing a raw pointer
(`readNode`) is total by returning a default node on a dead or
out-of-range pointer; in the well-formed states described by the `rep`
predicate below every dereference performed by the operations hits a
live slot, so the default is never consulted there.
-/

/-- Mirrors `struct Node<T>`: one element plus `next`/`prev` links, each
either `none` (the null link) or a pointer (heap index). -/
structure Node (α : Type) where
  element : α
  next : Option Nat
  prev : Option Nat
  deriving Repr, DecidableEq

/-- The heap: slot `p` holds the node that pointer `p` refers to, or
`none` if that allocation has been freed. -/
abbrev Heap (α : Type) := List (Option (Node α))

/-- Mirrors `Node::new`: a fresh node with both links null. -/
def Node.new (element : α) : Node α :=
  { element := element, next := none, prev := none }

/-- Dereference a raw pointer (`*p.as_ptr()` on the read side). -/
def readNode [Inhabited α] (h : Heap α) (p : Nat) : Node α :=
  ((h[p]?).getD none).getD (Node.new default)

/-- Write through a raw pointer (`(*p.as_ptr()).field = ...`). -/
def writeNode (h : Heap α) (p : Nat) (n : Node α) : Heap α :=
  h.set p (some n)

/-- Reclaim a node's storage (the drop of `Box::from_raw`). -/
def freeNode (h : Heap α) (p : Nat) : Heap α :=
  h.set p none

/-- Mirrors `struct LinkedList<T>` together with the heap of nodes the
list owns: `head`/`tail` pointers and the `len` field. -/
structure LinkedList (α : Type) where
  heap : Heap α
  head : Option Nat
  tail : Option Nat
  len : Nat
  deriving Repr, DecidableEq

namespace LinkedList

/-- Mirrors `LinkedList::new`. -/
def new : LinkedList α :=
  { heap := [], head := none, tail := none, len := 0 }

/-- Mirrors `LinkedList::len`. -/
def length (l : LinkedList α) : Nat :=
  l.len

/-- Mirrors `LinkedList::is_empty`. -/
def is_empty (l : LinkedList α) : Bool :=
  l.len == 0

/-- Mirrors `LinkedList::push_front`: allocate, link against the old
head (if any), update `head` (and `tail` when the list was empty),
increment `len`. -/
def push_front [Inhabited α] (l : LinkedList α) (value : α) : LinkedList α :=
  let new_head := l.heap.length
  let heap0 := l.heap ++ [some (Node.new value)]
  match l.head with
  | none =>
      { heap := heap0, head := some new_head, tail := some new_head, len := l.len + 1 }
  | some old_head =>
      let heap1 := writeNode heap0 old_head
        { readNode heap0 old_head with prev := some new_head }
      let heap2 := writeNode heap1 new_head
        { readNode heap1 new_head with next := some old_head }
      { heap := heap2, head := some new_head, tail := l.tail, len := l.len + 1 }

/-- Mirrors `LinkedList::push_back`: allocate, link against the old
tail (if any), update `tail` (and `head` when the list was empty),
increment `len`. -/
def push_back [Inhabited α] (l : LinkedList α) (value : α) : LinkedList α :=
  let new_tail := l.heap.length
  let heap0 := l.heap ++ [some (Node.new value)]
  match l.tail with
  | none =>
      { heap := heap0, head := some new_tail, tail := some new_tail, len := l.len + 1 }
  | some old_tail =>
      let heap1 := writeNode heap0 old_tail
        { readNode heap0 old_tail with next := some new_tail }
      let heap2 := writeNode heap1 new_tail
        { readNode heap1 new_tail with prev := some old_tail }
      { heap := heap2, head := l.head, tail := some new_tail, len := l.len + 1 }

/-- Mirrors `LinkedList::pop_front`: detach the head node, null the new
head's `prev`, decrement `len`, free the node, return its element. -/
def pop_front [Inhabited α] (l : LinkedList α) : Option α × LinkedList α :=
  match l.head with
  | none => (none, l)
  | some old_head =>
      let node := readNode l.heap old_head
      match node.next with
      | none =>
          (some node.element,
            { heap := freeNode l.heap old_head, head := none, tail := none,
              len := l.len - 1 })
      | some new_head =>
          let heap1 := writeNode l.heap new_head
            { readNode l.heap new_head with prev := none }
          (some node.element,
            { heap := freeNode heap1 old_head, head := some new_head, tail := l.tail,
              len := l.len - 1 })

/-- Mirrors `LinkedList::pop_back`: detach the tail node, null the new
tail's `next`, decrement `len`, free the node, return its element. -/
def pop_back [Inhabited α] (l : LinkedList α) : Option α × LinkedList α :=
  match l.tail with
  | none => (none, l)
  | some old_tail =>
      let node := readNode l.heap old_tail
      match node.prev with
      | none =>
          (some node.element,
            { heap := freeNode l.heap old_tail, head := none, tail := none,
              len := l.len - 1 })
      | some new_tail =>
          let heap1 := writeNode l.heap new_tail
            { readNode l.heap new_tail with next := none }
          (some node.element,
            { heap := freeNode heap1 old_tail, head := l.head, tail := some new_tail,
              len := l.len - 1 })

/-- Mirrors `LinkedList::front`. -/
def front [Inhabited α] (l : LinkedList α) : Option α :=
  l.head.map (fun node => (readNode l.heap node).element)

/-- Mirrors `LinkedList::back`. -/
def back [Inhabited α] (l : LinkedList α) : Option α :=
  l.tail.map (fun node => (readNode l.heap node).element)

/-- Mirrors `impl From<[T; N]> for LinkedList` / `FromIterator`: start
from the default (empty) list and `push_back` every element in input
order. -/
def fromSeq [Inhabited α] (elems : List α) : LinkedList α :=
  elems.foldl push_back new

end LinkedList

/-!
Cursors.  A cursor (`Cursor` / `CursorMut` in the source) holds an
`index : usize` and a `current : Link<T>` beside its borrow of the list.
We pass those two fields and the list explicitly.  `current = none` is
the off-list position.
-/

/-- Mirrors the free function `move_next`: off-list goes to the list's
head with index 0; from a node, follow its `next` link and increment
the index. Returns the new `(current, index)` pair. -/
def move_next [Inhabited α] (current : Option Nat) (index : Nat)
    (list : LinkedList α) : Option Nat × Nat :=
  match current with
  | none => (list.head, 0)
  | some node => ((readNode list.heap node).next, index + 1)

/-- Mirrors the free function `move_prev`: off-list goes to the list's
tail with index `len.saturating_sub(1)`; from a node, follow its `prev`
link and saturating-decrement the index. -/
def move_prev [Inhabited α] (current : Option Nat) (index : Nat)
    (list : LinkedList α) : Option Nat × Nat :=
  match current with
  | none => (list.tail, list.length - 1)
  | some node => ((readNode list.heap node).prev, index - 1)

namespace Cursor

/-- Mirrors `Cursor::index` (and `CursorMut::index`): the stored index,
but only when the cursor is on a node. -/
def idx (current : Option Nat) (index : Nat) : Option Nat :=
  current.map (fun _ => index)

/-- Mirrors `Cursor::current` (and `CursorMut::current`): the element at
the current node, if any. -/
def cur [Inhabited α] (list : LinkedList α) (current : Option Nat) : Option α :=
  current.map (fun node => (readNode list.heap node).element)

/-- Mirrors `Cursor::peek_next`: the element `move_next` would land on,
computed from the head when off-list or from the current node's `next`. -/
def peek_next [Inhabited α] (list : LinkedList α) (current : Option Nat) : Option α :=
  let next := match current with
    | none => list.head
    | some node => (readNode list.heap node).next
  next.map (fun node => (readNode list.heap node).element)

/-- Mirrors `Cursor::peek_prev`. -/
def peek_prev [Inhabited α] (list : LinkedList α) (current : Option Nat) : Option α :=
  let prev := match current with
    | none => list.tail
    | some node => (readNode list.heap node).prev
  prev.map (fun node => (readNode list.heap node).element)

end Cursor

namespace CursorMut

/-- Mirrors `CursorMut::delete`: when on a node, unlink it (previous's
next becomes deleted's next, next's prev becomes deleted's prev, head
and tail adjusted at the boundaries), move `current` to the old `next`,
free the node and return its element.  Note the source never decrements
`list.len` here.  Returns `(deleted element, list, index, current)`. -/
def delete [Inhabited α] (list : LinkedList α) (index : Nat)
    (current : Option Nat) : Option α × LinkedList α × Nat × Option Nat :=
  match current with
  | none => (none, list, index, none)
  | some node =>
      let cur_node := readNode list.heap node
      let prev := cur_node.prev
      let next := cur_node.next
      let heap1 := match prev with
        | none => list.heap
        | some p => writeNode list.heap p { readNode list.heap p with next := next }
      let head1 := match prev with
        | none => next
        | some _ => list.head
      let heap2 := match next with
        | none => heap1
        | some n => writeNode heap1 n { readNode heap1 n with prev := prev }
      let tail1 := if next.isNone then prev else list.tail
      (some cur_node.element,
        { heap := freeNode heap2 node, head := head1, tail := tail1, len := list.len },
        index, next)

/-- Mirrors `CursorMut::insert_before`: off-list delegates to
`push_front`; on a node whose `prev` is null it also delegates to
`push_front`; otherwise splice a fresh node between `prev` and the
current node.  On the `Some(current)` branch the index is incremented.
Returns `(list, index)`; `current` is never modified. -/
def insert_before [Inhabited α] (list : LinkedList α) (index : Nat)
    (current : Option Nat) (element : α) : LinkedList α × Nat :=
  match current with
  | none => (list.push_front element, index)
  | some current =>
      let prev := (readNode list.heap current).prev
      match prev with
      | none => (list.push_front element, index + 1)
      | some prev =>
          let node := list.heap.length
          let heap0 := list.heap ++ [some (Node.new element)]
          let heap1 := writeNode heap0 prev
            { readNode heap0 prev with next := some node }
          let heap2 := writeNode heap1 node
            { readNode heap1 node with prev := some prev }
          let heap3 := writeNode heap2 node
            { readNode heap2 node with next := some current }
          let heap4 := writeNode heap3 current
            { readNode heap3 current with prev := some node }
          ({ list with heap := heap4, len := list.len + 1 }, index + 1)

/-- Mirrors `CursorMut::insert_after`: off-list delegates to
`push_back`; on a node whose `next` is null it also delegates to
`push_back`; otherwise splice a fresh node between the current node and
`next`.  The index is never modified; returns the updated list. -/
def insert_after [Inhabited α] (list : LinkedList α) (index : Nat)
    (current : Option Nat) (element : α) : LinkedList α × Nat :=
  match current with
  | none => (list.push_back element, index)
  | some current =>
      let next := (readNode list.heap current).next
      match next with
      | none => (list.push_back element, index)
      | some next =>
          let node := list.heap.length
          let heap0 := list.heap ++ [some (Node.new element)]
          let heap1 := writeNode heap0 current
            { readNode heap0 current with next := some node }
          let heap2 := writeNode heap1 node
            { readNode heap1 node with prev := some current }
          let heap3 := writeNode heap2 node
            { readNode heap2 node with next := some next }
          let heap4 := writeNode heap3 next
            { readNode heap3 next with prev := some node }
          ({ list with heap := heap4, len := list.len + 1 }, index)

end CursorMut

/-!
Iterators.  The borrowing iterator `Iter` copies the list's `head`,
`tail` and `len` at creation and reads nodes from the (unchanged) heap;
the owning iterator `IntoIter` wraps the list and pops from the front.
-/

/-- Mirrors `struct Iter`: head/tail bounds plus the remaining count. -/
structure Iter (α : Type) where
  head : Option Nat
  tail : Option Nat
  len : Nat
  deriving Repr, DecidableEq

/-- Mirrors `LinkedList::iter`. -/
def LinkedList.iter (l : LinkedList α) : Iter α :=
  { head := l.head, tail := l.tail, len := l.len }

namespace Iter

/-- Mirrors `Iter::next` (`IterMut::next` is identical in shape): yield
nothing once `len` is 0, otherwise yield the head element, advance
`head` along the `next` link and decrement `len`. -/
def next [Inhabited α] (h : Heap α) (it : Iter α) : Option α × Iter α :=
  if it.len = 0 then (none, it)
  else
    match it.head with
    | none => (none, it)
    | some node =>
        let n := readNode h node
        (some n.element, { it with head := n.next, len := it.len - 1 })

/-- Mirrors `Iter::next_back`: yield nothing once `len` is 0, otherwise
yield the tail element, retreat `tail` along the `prev` link and
decrement `len`. -/
def next_back [Inhabited α] (h : Heap α) (it : Iter α) : Option α × Iter α :=
  if it.len = 0 then (none, it)
  else
    match it.tail with
    | none => (none, it)
    | some node =>
        let n := readNode h node
        (some n.element, { it with tail := n.prev, len := it.len - 1 })

end Iter

/-- Mirrors `struct IntoIter`: the owned list being drained. -/
structure IntoIter (α : Type) where
  list : LinkedList α
  deriving Repr, DecidableEq

namespace IntoIter

/-- Mirrors `IntoIter::next`: `self.list.pop_front()`. -/
def next [Inhabited α] (it : IntoIter α) : Option α × IntoIter α :=
  let r := it.list.pop_front
  (r.1, { list := r.2 })

end IntoIter

/-!
Representation predicate.  `chainSeg h p ps xs stop` says that the heap
slots named by the pointer list `ps` form a well-linked doubly linked
segment holding the elements `xs`: the first node's `prev` is `p`, each
node's `next` points to the next pointer in `ps`, and the last node's
`next` is `stop`.  A whole well-formed list is a segment from `none` to
`none` whose first and last pointers are the list's `head` and `tail`.
-/

/-- Drain a list from the front by repeated `pop_front`, collecting the
yielded elements, with an explicit fuel bound. -/
def drainFront [Inhabited α] : Nat → LinkedList α → List α
  | 0, _ => []
  | fuel + 1, l =>
      match l.pop_front with
      | (none, _) => []
      | (some x, l2) => x :: drainFront fuel l2

/-- Drain via the owning iterator, collecting the yielded elements. -/
def collectIntoIter [Inhabited α] : Nat → IntoIter α → List α
  | 0, _ => []
  | fuel + 1, it =>
      match IntoIter.next it with
      | (none, _) => []
      | (some x, it2) => x :: collectIntoIter fuel it2

/-- The cursor state after `k` calls of `move_next` starting from the
initial cursor (off-list, index 0). -/
def nextSteps [Inhabited α] (l : LinkedList α) : Nat → Option Nat × Nat
  | 0 => (none, 0)
  | k + 1 => move_next (nextSteps l k).1 (nextSteps l k).2 l

/-- The `current` component of one `move_next` step; the new `current`
never depends on the index. -/
def curStep [Inhabited α] (l : LinkedList α) (c : Option Nat) : Option Nat :=
  (move_next c 0 l).1

def chainSeg [Inhabited α] (h : Heap α) :
    Option Nat → List Nat → List α → Option Nat → Prop
  | _, [], [], _ => True
  | p, q :: ps, x :: xs, stop =>
      h[q]? = some (some { element := x, next := (ps.head?).or stop, prev := p }) ∧
      chainSeg h (some q) ps xs stop
  | _, [], _ :: _, _ => False
  | _, _ :: _, [], _ => False

/-- The representation invariant tying a `LinkedList` state to the
pointer list `ps` of its nodes (front to back) and the abstract value
list `xs` it holds. -/
structure rep [Inhabited α] (l : LinkedList α) (ps : List Nat) (xs : List α) : Prop where
  chain : chainSeg l.heap none ps xs none
  head_eq : l.head = ps.head?
  tail_eq : l.tail = ps.getLast?
  len_eq : l.len = xs.length
  nodup : ps.Nodup

theorem chainSeg_nil [Inhabited α] (h : Heap α) (p stop : Option Nat) :
    chainSeg h p [] [] stop := by
  simp [chainSeg]

theorem chainSeg_cons_iff [Inhabited α] (h : Heap α) (p stop : Option Nat)
    (q : Nat) (ps : List Nat) (x : α) (xs : List α) :
    chainSeg h p (q :: ps) (x :: xs) stop ↔
      h[q]? = some (some { element := x, next := (ps.head?).or stop, prev := p }) ∧
      chainSeg h (some q) ps xs stop := Iff.rfl

theorem chainSeg_length_eq [Inhabited α] {h : Heap α}
    {p stop : Option Nat} {ps : List Nat} {xs : List α}
    (hc : chainSeg h p ps xs stop) : ps.length = xs.length := by
  induction ps generalizing p xs with
  | nil => cases xs with
    | nil => rfl
    | cons x xs => exact absurd hc (by simp [chainSeg])
  | cons q ps ih =>
    cases xs with
    | nil => exact absurd hc (by simp [chainSeg])
    | cons x xs => simpa using ih hc.2

theorem chainSeg_mem_lt [Inhabited α] {h : Heap α}
    {p stop : Option Nat} {ps : List Nat} {xs : List α}
    (hc : chainSeg h p ps xs stop) : ∀ q ∈ ps, q < h.length := by
  induction ps generalizing p xs with
  | nil => intro q hq; cases hq
  | cons r ps ih =>
    cases xs with
    | nil => exact absurd hc (by simp [chainSeg])
    | cons x xs =>
      intro q hq
      rcases List.mem_cons.mp hq with rfl | hq
      · exact (List.getElem?_eq_some.mp hc.1).1
      · exact ih hc.2 q hq

theorem chainSeg_heap_grow [Inhabited α] {h : Heap α}
    {p stop : Option Nat} {ps : List Nat} {xs : List α} (h2 : Heap α)
    (hc : chainSeg h p ps xs stop) : chainSeg (h ++ h2) p ps xs stop := by
  induction ps generalizing p xs with
  | nil => cases xs with
    | nil => exact chainSeg_nil _ _ _
    | cons x xs => exact absurd hc (by simp [chainSeg])
  | cons q ps ih =>
    cases xs with
    | nil => exact absurd hc (by simp [chainSeg])
    | cons x xs =>
      refine ⟨?_, ih hc.2⟩
      have hlt : q < h.length := (List.getElem?_eq_some.mp hc.1).1
      rw [List.getElem?_append, if_pos hlt]
      exact hc.1

theorem chainSeg_set_of_not_mem [Inhabited α] {h : Heap α}
    {p stop : Option Nat} {ps : List Nat} {xs : List α}
    {q : Nat} (v : Option (Node α)) (hq : q ∉ ps)
    (hc : chainSeg h p ps xs stop) : chainSeg (h.set q v) p ps xs stop := by
  induction ps generalizing p xs with
  | nil => cases xs with
    | nil => exact chainSeg_nil _ _ _
    | cons x xs => exact absurd hc (by simp [chainSeg])
  | cons r ps ih =>
    cases xs with
    | nil => exact absurd hc (by simp [chainSeg])
    | cons x xs =>
      have hqr : q ≠ r := fun e => hq (e ▸ List.mem_cons_self _ _)
      have hq2 : q ∉ ps := fun e => hq (List.mem_cons_of_mem _ e)
      exact ⟨by rw [List.getElem?_set_ne hqr]; exact hc.1, ih hq2 hc.2⟩

theorem readNode_of_getElem [Inhabited α] {h : Heap α} {q : Nat} {n : Node α}
    (hq : h[q]? = some (some n)) : readNode h q = n := by
  simp [readNode, hq]

theorem headOr_append (ps₁ ps₂ : List Nat) (stop : Option Nat) :
    (((ps₁ ++ ps₂).head?).or stop) = (ps₁.head?).or ((ps₂.head?).or stop) := by
  cases ps₁ with
  | nil => simp [Option.none_or]
  | cons a l => rfl

theorem lastOr_cons (q : Nat) (ps : List Nat) (p : Option Nat) :
    (((q :: ps).getLast?).or p) = (ps.getLast?).or (some q) := by
  cases ps with
  | nil => simp
  | cons r ps =>
      rcases e : (r :: ps).getLast? with _ | b
      · exact absurd e (by simp)
      · rw [List.getLast?_cons_cons, e]; rfl

theorem chainSeg_append_iff [Inhabited α] (h : Heap α) (p stop : Option Nat)
    (ps₁ ps₂ : List Nat) (xs₁ xs₂ : List α) (hlen : ps₁.length = xs₁.length) :
    chainSeg h p (ps₁ ++ ps₂) (xs₁ ++ xs₂) stop ↔
      chainSeg h p ps₁ xs₁ ((ps₂.head?).or stop) ∧
      chainSeg h ((ps₁.getLast?).or p) ps₂ xs₂ stop := by
  induction ps₁ generalizing p xs₁ with
  | nil =>
      cases xs₁ with
      | nil => simp [chainSeg_nil, Option.none_or]
      | cons x xs => simp at hlen
  | cons q ps₁ ih =>
      cases xs₁ with
      | nil => simp at hlen
      | cons x xs₁ =>
          rw [List.cons_append, List.cons_append, chainSeg_cons_iff, headOr_append,
            ih (some q) xs₁ (by simpa using hlen), lastOr_cons, chainSeg_cons_iff]
          exact ⟨fun ⟨a, b, c⟩ => ⟨⟨a, b⟩, c⟩, fun ⟨⟨a, b⟩, c⟩ => ⟨a, b, c⟩⟩

theorem chainSeg_get [Inhabited α] {h : Heap α} {p stop : Option Nat}
    {ps : List Nat} {xs : List α} (hc : chainSeg h p ps xs stop) :
    ∀ (i q : Nat), ps[i]? = some q → ∃ x, xs[i]? = some x ∧
      h[q]? = some (some { element := x, next := (ps[i+1]?).or stop,
                           prev := if i = 0 then p else ps[i-1]? }) := by
  induction ps generalizing p xs with
  | nil => intro i q hq; simp at hq
  | cons r ps ih =>
      cases xs with
      | nil => exact absurd hc (by simp [chainSeg])
      | cons x xs =>
          intro i q hq
          cases i with
          | zero =>
              refine ⟨x, by simp, ?_⟩
              obtain rfl : r = q := by simpa using hq
              have := hc.1
              rw [List.getElem?_cons_succ, ← List.head?_eq_getElem?]
              simpa using this
          | succ j =>
              rw [List.getElem?_cons_succ] at hq
              obtain ⟨y, hy, hnode⟩ := ih hc.2 j q hq
              refine ⟨y, by simpa using hy, ?_⟩
              cases j with
              | zero => simpa using hnode
              | succ k => simpa [Nat.succ_sub_one] using hnode

theorem rep_new [Inhabited α] : rep (LinkedList.new (α := α)) [] [] :=
  ⟨chainSeg_nil _ _ _, rfl, rfl, rfl, List.nodup_nil⟩

theorem rep_length_eq [Inhabited α] {l : LinkedList α} {ps : List Nat} {xs : List α}
    (hr : rep l ps xs) : ps.length = xs.length :=
  chainSeg_length_eq hr.chain

theorem rep_mem_lt [Inhabited α] {l : LinkedList α} {ps : List Nat} {xs : List α}
    (hr : rep l ps xs) : ∀ q ∈ ps, q < l.heap.length :=
  chainSeg_mem_lt hr.chain

theorem rep_fresh_not_mem [Inhabited α] {l : LinkedList α} {ps : List Nat} {xs : List α}
    (hr : rep l ps xs) : l.heap.length ∉ ps := fun hmem =>
  absurd (rep_mem_lt hr _ hmem) (lt_irrefl _)

theorem rep_push_front [Inhabited α] {l : LinkedList α} {ps : List Nat} {xs : List α}
    (hr : rep l ps xs) (v : α) :
    rep (l.push_front v) (l.heap.length :: ps) (v :: xs) := by
  obtain ⟨hc, hh, ht, hl, hn⟩ := hr
  cases ps with
  | nil =>
      obtain rfl : xs = [] := by
        have := chainSeg_length_eq hc
        exact List.length_eq_zero.mp (by simpa using this.symm)
      have hh0 : l.head = none := by simpa using hh
      simp only [LinkedList.push_front, hh0]
      refine ⟨?_, rfl, by simp, by simpa using hl, by simp⟩
      rw [chainSeg_cons_iff]
      refine ⟨?_, chainSeg_nil _ _ _⟩
      rw [List.getElem?_concat_length]
      rfl
  | cons hp ps =>
      cases xs with
      | nil => exact absurd hc (by simp [chainSeg])
      | cons x xs =>
          have hh1 : l.head = some hp := by simpa using hh
          have hnode := hc.1
          have hlt : hp < l.heap.length := (List.getElem?_eq_some.mp hnode).1
          have hne : hp ≠ l.heap.length := Nat.ne_of_lt hlt
          have e0 : (l.heap ++ [some (Node.new v)])[hp]? =
              some (some { element := x, next := (ps.head?).or none, prev := none }) := by
            rw [List.getElem?_append, if_pos hlt]; exact hnode
          have e1 := readNode_of_getElem e0
          have e2 : ((l.heap ++ [some (Node.new v)]).set hp
              (some { element := x, next := (ps.head?).or none,
                      prev := some l.heap.length }))[l.heap.length]? =
              some (some (Node.new v)) := by
            rw [List.getElem?_set_ne hne, List.getElem?_concat_length]
          have e3 := readNode_of_getElem e2
          simp only [LinkedList.push_front, hh1, writeNode, e1, e3]
          have hfresh : ∀ q ∈ ps, q ≠ l.heap.length := fun q hq =>
            Nat.ne_of_lt (chainSeg_mem_lt hc q (List.mem_cons_of_mem _ hq))
          have hpnotin : hp ∉ ps := (List.nodup_cons.mp hn).1
          refine ⟨?_, rfl, ?_, by simpa using hl, ?_⟩
          · have hlt2 : hp < (l.heap ++ [some (Node.new v)]).length := by
              simp only [List.length_append, List.length_singleton]
              omega
            rw [chainSeg_cons_iff]
            constructor
            · rw [List.getElem?_set_self
                (by simp only [List.length_set, List.length_append, List.length_singleton]; omega)]
              rfl
            · rw [chainSeg_cons_iff]
              constructor
              · rw [List.getElem?_set_ne (Ne.symm hne), List.getElem?_set_self hlt2]
              · refine chainSeg_set_of_not_mem _ ?_ (chainSeg_set_of_not_mem _ hpnotin
                  (chainSeg_heap_grow _ hc.2))
                intro hmem
                exact hfresh _ hmem rfl
          · rw [ht, List.getLast?_cons_cons]
          · rw [List.nodup_cons]
            refine ⟨?_, hn⟩
            intro hmem
            rcases List.mem_cons.mp hmem with e | e
            · exact hne e.symm
            · exact hfresh _ e rfl

theorem rep_push_back [Inhabited α] {l : LinkedList α} {ps : List Nat} {xs : List α}
    (hr : rep l ps xs) (v : α) :
    rep (l.push_back v) (ps ++ [l.heap.length]) (xs ++ [v]) := by
  obtain ⟨hc, hh, ht, hl, hn⟩ := hr
  rcases List.eq_nil_or_concat ps with rfl | ⟨ps₁, tp, rfl⟩
  · obtain rfl : xs = [] := by
      have := chainSeg_length_eq hc
      exact List.length_eq_zero.mp (by simpa using this.symm)
    have ht0 : l.tail = none := by simpa using ht
    simp only [LinkedList.push_back, ht0]
    refine ⟨?_, rfl, by simp, by simpa using hl, by simp⟩
    simp only [List.nil_append]
    rw [chainSeg_cons_iff]
    refine ⟨?_, chainSeg_nil _ _ _⟩
    rw [List.getElem?_concat_length]
    rfl
  · rcases List.eq_nil_or_concat xs with rfl | ⟨xs₁, xl, rfl⟩
    · exact absurd (chainSeg_length_eq hc) (by simp)
    simp only [List.concat_eq_append] at hh ht hn hl hc ⊢
    have hlen1 : ps₁.length = xs₁.length := by
      have := chainSeg_length_eq hc; simpa using this
    rw [chainSeg_append_iff _ _ _ _ _ _ _ hlen1] at hc
    obtain ⟨hc1, hc2⟩ := hc
    have hnode := hc2.1
    simp only [List.head?_nil, Option.none_or] at hnode
    have ht1 : l.tail = some tp := by rw [ht, List.getLast?_concat]
    have hlt : tp < l.heap.length := (List.getElem?_eq_some.mp hnode).1
    have hne : tp ≠ l.heap.length := Nat.ne_of_lt hlt
    have e0 : (l.heap ++ [some (Node.new v)])[tp]? =
        some (some { element := xl, next := none, prev := (ps₁.getLast?).or none }) := by
      rw [List.getElem?_append, if_pos hlt]; exact hnode
    have e1 := readNode_of_getElem e0
    have e2 : ((l.heap ++ [some (Node.new v)]).set tp
        (some { element := xl, next := some l.heap.length,
                prev := (ps₁.getLast?).or none }))[l.heap.length]? =
        some (some (Node.new v)) := by
      rw [List.getElem?_set_ne hne, List.getElem?_concat_length]
    have e3 := readNode_of_getElem e2
    simp only [LinkedList.push_back, ht1, writeNode, e1, e3]
    have hfresh : ∀ q ∈ ps₁, q ≠ l.heap.length := fun q hq =>
      Nat.ne_of_lt (chainSeg_mem_lt hc1 q hq)
    have htp_notin : tp ∉ ps₁ := by
      intro hmem
      exact (List.nodup_append.mp hn).2.2 hmem (List.mem_singleton.mpr rfl)
    have hlt2 : tp < (l.heap ++ [some (Node.new v)]).length := by
      simp only [List.length_append, List.length_singleton]; omega
    have hfresh2 : List.length l.heap ∉ ps₁ ++ [tp] := by
      intro hmem
      rcases List.mem_append.mp hmem with hmem | hmem
      · exact hfresh _ hmem rfl
      · have heq : List.length l.heap = tp := by simpa using hmem
        exact hne heq.symm
    refine ⟨?_, ?_, ?_, ?_, ?_⟩
    · rw [List.append_assoc, List.append_assoc,
        chainSeg_append_iff _ _ _ _ _ _ _ hlen1]
      constructor
      · have hc1a : chainSeg l.heap none ps₁ xs₁
            ((([tp] ++ [List.length l.heap]).head?).or none) := by
          simpa using hc1
        exact chainSeg_set_of_not_mem _ (fun hmem => hfresh _ hmem rfl)
          (chainSeg_set_of_not_mem _ htp_notin (chainSeg_heap_grow _ hc1a))
      · simp only [List.singleton_append]
        rw [chainSeg_cons_iff]
        constructor
        · rw [List.getElem?_set_ne (Ne.symm hne), List.getElem?_set_self hlt2]
          rfl
        · rw [chainSeg_cons_iff]
          constructor
          · rw [List.getElem?_set_self
              (by simp only [List.length_set, List.length_append, List.length_singleton]; omega)]
            rfl
          · exact chainSeg_nil _ _ _
    · rw [hh]
      rcases ps₁ with _ | ⟨a, l₁⟩ <;> rfl
    · rw [List.getLast?_concat]
    · simp only [List.length_append, List.length_singleton]
      simpa using hl
    · refine List.Nodup.append hn (List.nodup_singleton _) ?_
      intro a ha hb
      exact hfresh2 (List.mem_singleton.mp hb ▸ ha)

theorem rep_nil_inv [Inhabited α] {l : LinkedList α} {ps : List Nat}
    (hr : rep l ps ([] : List α)) :
    ps = [] ∧ l.head = none ∧ l.tail = none ∧ l.len = 0 := by
  obtain ⟨hc, hh, ht, hl, -⟩ := hr
  obtain rfl : ps = [] := by
    cases ps with
    | nil => rfl
    | cons q ps => exact absurd hc (by simp [chainSeg])
  exact ⟨rfl, by simpa using hh, by simpa using ht, by simpa using hl⟩

theorem pop_front_nil [Inhabited α] {l : LinkedList α} {ps : List Nat}
    (hr : rep l ps ([] : List α)) : l.pop_front = (none, l) := by
  obtain ⟨-, hh, -, -⟩ := rep_nil_inv hr
  simp [LinkedList.pop_front, hh]

theorem pop_back_nil [Inhabited α] {l : LinkedList α} {ps : List Nat}
    (hr : rep l ps ([] : List α)) : l.pop_back = (none, l) := by
  obtain ⟨-, -, ht, -⟩ := rep_nil_inv hr
  simp [LinkedList.pop_back, ht]

theorem pop_front_cons [Inhabited α] {l : LinkedList α} {q : Nat} {ps : List Nat}
    {x : α} {xs : List α} (hr : rep l (q :: ps) (x :: xs)) :
    (l.pop_front).1 = some x ∧ rep (l.pop_front).2 ps xs := by
  obtain ⟨hc, hh, ht, hl, hn⟩ := hr
  have hh1 : l.head = some q := by simpa using hh
  have hnode := hc.1
  have e1 := readNode_of_getElem hnode
  cases ps with
  | nil =>
      obtain rfl : xs = [] := by
        have := chainSeg_length_eq hc
        exact List.length_eq_zero.mp (by simpa using this.symm)
      simp only [LinkedList.pop_front, hh1, e1, List.head?_nil, Option.none_or]
      have hl1 : l.len = 1 := by simpa using hl
      constructor
      · trivial
      · exact ⟨chainSeg_nil _ _ _, rfl, rfl, by simp [hl1], List.nodup_nil⟩
  | cons r ps =>
      cases xs with
      | nil => exact absurd hc.2 (by simp [chainSeg])
      | cons y ys =>
          have hnode2 := hc.2.1
          have e2 := readNode_of_getElem hnode2
          have hrlt : r < l.heap.length := (List.getElem?_eq_some.mp hnode2).1
          have hqr : q ≠ r := fun e => (List.nodup_cons.mp hn).1 (e ▸ List.mem_cons_self _ _)
          have hq_notin : q ∉ ps := fun e =>
            (List.nodup_cons.mp hn).1 (List.mem_cons_of_mem _ e)
          have hr_notin : r ∉ ps := (List.nodup_cons.mp (List.nodup_cons.mp hn).2).1
          have hl1 : l.len = ys.length + 2 := by simpa using hl
          simp only [LinkedList.pop_front, hh1, e1, List.head?_cons, Option.or_some,
            writeNode, freeNode, e2]
          constructor
          · trivial
          refine ⟨?_, rfl, ?_, ?_, (List.nodup_cons.mp hn).2⟩
          · rw [chainSeg_cons_iff]
            constructor
            · rw [List.getElem?_set_ne hqr, List.getElem?_set_self hrlt]
            · exact chainSeg_set_of_not_mem _ hq_notin
                (chainSeg_set_of_not_mem _ hr_notin hc.2.2)
          · rw [ht, List.getLast?_cons_cons]
          · simp only [List.length_cons]
            omega

theorem rep_move_next_off [Inhabited α] {l : LinkedList α} {ps : List Nat}
    {xs : List α} (hr : rep l ps xs) (i : Nat) :
    move_next none i l = (ps.head?, 0) := by
  simp [move_next, hr.head_eq]

theorem rep_move_next_at [Inhabited α] {l : LinkedList α} {ps : List Nat}
    {xs : List α} (hr : rep l ps xs) (i q : Nat) (hq : ps[i]? = some q) :
    move_next (some q) i l = (ps[i + 1]?, i + 1) := by
  obtain ⟨x, -, hnode⟩ := chainSeg_get hr.chain i q hq
  simp [move_next, readNode_of_getElem hnode, Option.or_none]

theorem rep_move_prev_off [Inhabited α] {l : LinkedList α} {ps : List Nat}
    {xs : List α} (hr : rep l ps xs) (i : Nat) :
    move_prev none i l = (ps.getLast?, xs.length - 1) := by
  simp [move_prev, hr.tail_eq, LinkedList.length, hr.len_eq]

theorem rep_move_prev_at [Inhabited α] {l : LinkedList α} {ps : List Nat}
    {xs : List α} (hr : rep l ps xs) (i q : Nat) (hq : ps[i]? = some q) :
    move_prev (some q) i l = ((if i = 0 then none else ps[i - 1]?), i - 1) := by
  obtain ⟨x, -, hnode⟩ := chainSeg_get hr.chain i q hq
  simp [move_prev, readNode_of_getElem hnode]

theorem rep_cur_at [Inhabited α] {l : LinkedList α} {ps : List Nat}
    {xs : List α} (hr : rep l ps xs) (i q : Nat) (hq : ps[i]? = some q) :
    Cursor.cur l (some q) = xs[i]? := by
  obtain ⟨x, hx, hnode⟩ := chainSeg_get hr.chain i q hq
  simp [Cursor.cur, readNode_of_getElem hnode, hx]

theorem move_next_fst_index_free [Inhabited α] (l : LinkedList α)
    (c : Option Nat) (i j : Nat) : (move_next c i l).1 = (move_next c j l).1 := by
  cases c <;> rfl

theorem nextSteps_fst_eq_iterate [Inhabited α] (l : LinkedList α) :
    ∀ k, (nextSteps l k).1 = (curStep l)^[k] none := by
  intro k
  induction k with
  | zero => rfl
  | succ k ih =>
      rw [Function.iterate_succ_apply']
      show (move_next (nextSteps l k).1 (nextSteps l k).2 l).1 = curStep l ((curStep l)^[k] none)
      rw [← ih, curStep, move_next_fst_index_free l _ _ 0]

theorem nextSteps_first_pass [Inhabited α] {l : LinkedList α} {ps : List Nat}
    {xs : List α} (hr : rep l ps xs) :
    ∀ k, 1 ≤ k → k ≤ xs.length + 1 → nextSteps l k = (ps[k - 1]?, k - 1) := by
  intro k
  induction k with
  | zero => intro h; omega
  | succ k ih =>
      intro _ hk
      cases k with
      | zero =>
          show move_next none 0 l = (ps[0]?, 0)
          rw [rep_move_next_off hr, List.head?_eq_getElem?]
      | succ k =>
          have hk1 : k + 1 ≤ xs.length := by omega
          have hlt : k < ps.length := by
            rw [rep_length_eq hr]; omega
          have hstep := ih (by omega) (by omega)
          show move_next (nextSteps l (k + 1)).1 (nextSteps l (k + 1)).2 l = _
          rw [hstep]
          simp only [Nat.add_sub_cancel]
          have hq2 : ps[k]? = some (ps.get ⟨k, hlt⟩) := by
            rw [List.getElem?_eq_some]
            exact ⟨hlt, rfl⟩
          rw [hq2, rep_move_next_at hr k _ hq2]

theorem curStep_cycle_zero [Inhabited α] {l : LinkedList α} {ps : List Nat}
    {xs : List α} (hr : rep l ps xs) :
    (curStep l)^[xs.length + 1] none = none := by
  have h1 := nextSteps_first_pass hr (xs.length + 1) (by omega) (by omega)
  have h2 := nextSteps_fst_eq_iterate l (xs.length + 1)
  rw [h1] at h2
  rw [← h2]
  simp only [Nat.add_sub_cancel]
  exact List.getElem?_len_le (by rw [rep_length_eq hr])

theorem curStep_cycle_mul [Inhabited α] {l : LinkedList α} {ps : List Nat}
    {xs : List α} (hr : rep l ps xs) :
    ∀ m, (curStep l)^[(xs.length + 1) * m] none = none := by
  intro m
  induction m with
  | zero => rfl
  | succ m ih =>
      rw [Nat.mul_succ, Function.iterate_add_apply, curStep_cycle_zero hr, ih]

theorem nextSteps_fst_mod [Inhabited α] {l : LinkedList α} {ps : List Nat}
    {xs : List α} (hr : rep l ps xs) (k : Nat) :
    (nextSteps l k).1 = (nextSteps l (k % (xs.length + 1))).1 := by
  rw [nextSteps_fst_eq_iterate, nextSteps_fst_eq_iterate]
  conv_lhs => rw [← Nat.div_add_mod k (xs.length + 1)]
  rw [Nat.add_comm, Function.iterate_add_apply, curStep_cycle_mul hr]

theorem nextSteps_fst_formula [Inhabited α] {l : LinkedList α} {ps : List Nat}
    {xs : List α} (hr : rep l ps xs) (k : Nat) :
    (nextSteps l k).1 =
      if k % (xs.length + 1) = 0 then none else ps[k % (xs.length + 1) - 1]? := by
  rw [nextSteps_fst_mod hr]
  rcases Nat.eq_zero_or_pos (k % (xs.length + 1)) with h0 | hpos
  · rw [h0]; simp [nextSteps, if_pos rfl]
  · have hub : k % (xs.length + 1) ≤ xs.length + 1 :=
      Nat.le_of_lt (Nat.mod_lt _ (by omega))
    rw [nextSteps_first_pass hr _ hpos hub, if_neg (by omega)]

theorem nextSteps_cur_formula [Inhabited α] {l : LinkedList α} {ps : List Nat}
    {xs : List α} (hr : rep l ps xs) (k : Nat) :
    Cursor.cur l (nextSteps l k).1 =
      if k % (xs.length + 1) = 0 then none else xs[k % (xs.length + 1) - 1]? := by
  rw [nextSteps_fst_formula hr]
  rcases Nat.eq_zero_or_pos (k % (xs.length + 1)) with h0 | hpos
  · rw [if_pos h0, if_pos h0]; rfl
  · rw [if_neg (by omega), if_neg (by omega)]
    have hub : k % (xs.length + 1) < xs.length + 1 := Nat.mod_lt _ (by omega)
    have hlt : k % (xs.length + 1) - 1 < ps.length := by
      rw [rep_length_eq hr]; omega
    have hq : ps[k % (xs.length + 1) - 1]? = some (ps.get ⟨_, hlt⟩) := by
      rw [List.getElem?_eq_some]; exact ⟨hlt, rfl⟩
    rw [hq, rep_cur_at hr _ _ hq]

theorem drainFront_of_rep [Inhabited α] :
    ∀ (xs : List α) (l : LinkedList α) (ps : List Nat), rep l ps xs →
      drainFront xs.length l = xs := by
  intro xs
  induction xs with
  | nil => intro l ps hr; rfl
  | cons x xs ih =>
      intro l ps hr
      cases ps with
      | nil => exact absurd hr.chain (by simp [chainSeg])
      | cons q ps =>
          obtain ⟨h1, h2⟩ := pop_front_cons hr
          have e : l.pop_front = (some x, (l.pop_front).2) := by rw [← h1]
          rw [List.length_cons]
          show (match l.pop_front with
            | (none, _) => []
            | (some y, l2) => y :: drainFront xs.length l2) = x :: xs
          rw [e]
          exact congrArg (x :: ·) (ih _ _ h2)

theorem rep_foldl_push_back [Inhabited α] :
    ∀ (xs ys : List α) (l : LinkedList α) (ps : List Nat), rep l ps ys →
      ∃ qs, rep (xs.foldl LinkedList.push_back l) qs (ys ++ xs) := by
  intro xs
  induction xs with
  | nil =>
      intro ys l ps hr
      exact ⟨ps, by simpa using hr⟩
  | cons x xs ih =>
      intro ys l ps hr
      obtain ⟨qs, hq⟩ := ih (ys ++ [x]) _ _ (rep_push_back hr x)
      exact ⟨qs, by simpa using hq⟩

theorem rep_fromSeq [Inhabited α] (xs : List α) :
    ∃ ps, rep (LinkedList.fromSeq xs) ps xs := by
  obtain ⟨qs, h⟩ := rep_foldl_push_back xs [] LinkedList.new [] rep_new
  exact ⟨qs, by simpa using h⟩

theorem collectIntoIter_eq_drainFront [Inhabited α] :
    ∀ (fuel : Nat) (l : LinkedList α),
      collectIntoIter fuel { list := l } = drainFront fuel l := by
  intro fuel
  induction fuel with
  | zero => intro l; rfl
  | succ fuel ih =>
      intro l
      rcases e : l.pop_front with ⟨r1, l2⟩
      have e2 : IntoIter.next { list := l } = (r1, { list := l2 }) := by
        simp [IntoIter.next, e]
      cases r1 with
      | none => simp only [collectIntoIter, drainFront, e2, e]
      | some x =>
          simp only [collectIntoIter, drainFront, e2, e]
          exact congrArg (x :: ·) (ih l2)

theorem insert_before_on_node [Inhabited α] {l : LinkedList α}
    {ps₁ ps₂ : List Nat} {xs₁ xs₂ : List α} {q : Nat} {x : α}
    (hr : rep l (ps₁ ++ q :: ps₂) (xs₁ ++ x :: xs₂))
    (hlen : ps₁.length = xs₁.length) (v : α) (i : Nat) :
    rep (CursorMut.insert_before l i (some q) v).1
        (ps₁ ++ l.heap.length :: q :: ps₂) (xs₁ ++ v :: x :: xs₂) ∧
    (CursorMut.insert_before l i (some q) v).2 = i + 1 := by
  rcases List.eq_nil_or_concat ps₁ with rfl | ⟨ps₁h, r, rfl⟩
  · obtain rfl : xs₁ = [] := by
      exact List.length_eq_zero.mp (by simpa using hlen.symm)
    simp only [List.nil_append] at hr ⊢
    have e_q := readNode_of_getElem hr.chain.1
    simp only [CursorMut.insert_before, e_q]
    exact ⟨rep_push_front hr v, trivial⟩
  · rcases List.eq_nil_or_concat xs₁ with rfl | ⟨xs₁h, xr, rfl⟩
    · exact absurd hlen (by simp)
    simp only [List.concat_eq_append] at hr hlen ⊢
    obtain ⟨hc, hh, ht, hl, hn⟩ := hr
    have hlenh : ps₁h.length = xs₁h.length := by simpa using hlen
    rw [chainSeg_append_iff _ _ _ _ _ _ _ hlen] at hc
    obtain ⟨hc1, hc2⟩ := hc
    rw [chainSeg_append_iff _ _ _ _ _ _ _ hlenh] at hc1
    obtain ⟨hc1a, hc1b⟩ := hc1
    have hr_node := hc1b.1
    have hq_node := hc2.1
    simp only [List.head?_cons, Option.or_some, List.head?_nil, Option.none_or,
      List.getLast?_concat] at hr_node hq_node hc1a hc2
    -- pointer facts
    have hr_lt : r < l.heap.length := (List.getElem?_eq_some.mp hr_node).1
    have hq_lt : q < l.heap.length := (List.getElem?_eq_some.mp hq_node).1
    have hr_ne_t : r ≠ l.heap.length := Nat.ne_of_lt hr_lt
    have hq_ne_t : q ≠ l.heap.length := Nat.ne_of_lt hq_lt
    have hmid := List.nodup_middle.mp hn
    have hq_notin : q ∉ (ps₁h ++ [r]) ++ ps₂ := (List.nodup_cons.mp hmid).1
    have hq_ne_r : q ≠ r := by
      intro e
      exact hq_notin (List.mem_append.mpr (Or.inl (by simp [e])))
    have hq_notin1 : q ∉ ps₁h := fun e =>
      hq_notin (List.mem_append.mpr (Or.inl (List.mem_append.mpr (Or.inl e))))
    have hq_notin2 : q ∉ ps₂ := fun e => hq_notin (List.mem_append.mpr (Or.inr e))
    have hps1_nd : (ps₁h ++ [r]).Nodup := (List.nodup_append.mp hn).1
    have hr_notin1 : r ∉ ps₁h := fun e =>
      (List.nodup_append.mp hps1_nd).2.2 e (by simp)
    have hdisj := (List.nodup_append.mp hn).2.2
    have hr_notin2 : r ∉ ps₂ := fun e =>
      hdisj (List.mem_append.mpr (Or.inr (by simp))) (List.mem_cons_of_mem _ e)
    have ht_notin1 : List.length l.heap ∉ ps₁h := fun e =>
      absurd (chainSeg_mem_lt hc1a _ e) (lt_irrefl _)
    have ht_notin2 : List.length l.heap ∉ ps₂ := fun e =>
      absurd (chainSeg_mem_lt hc2.2 _ e) (lt_irrefl _)
    -- read/write computations along the splice
    have e_q := readNode_of_getElem hq_node
    have f1 : (l.heap ++ [some ({ element := v, next := none, prev := none } : Node α)])[r]? =
        some (some { element := xr, next := some q,
                     prev := (ps₁h.getLast?).or none }) := by
      rw [List.getElem?_append, if_pos hr_lt]; exact hr_node
    have e_f1 := readNode_of_getElem f1
    have f2 : ((l.heap ++ [some ({ element := v, next := none, prev := none } : Node α)]).set r
        (some { element := xr, next := some l.heap.length,
                prev := (ps₁h.getLast?).or none }))[l.heap.length]? =
        some (some ({ element := v, next := none, prev := none } : Node α)) := by
      rw [List.getElem?_set_ne hr_ne_t, List.getElem?_concat_length]
    have e_f2 := readNode_of_getElem f2
    have hlen0 : l.heap.length <
        (l.heap ++ [some ({ element := v, next := none, prev := none } : Node α)]).length := by
      simp
    have f3 : (((l.heap ++ [some ({ element := v, next := none, prev := none } : Node α)]).set r
        (some { element := xr, next := some l.heap.length,
                prev := (ps₁h.getLast?).or none })).set l.heap.length
        (some { element := v, next := none, prev := some r }))[l.heap.length]? =
        some (some { element := v, next := none, prev := some r }) := by
      rw [List.getElem?_set_self (by simpa using hlen0)]
    have e_f3 := readNode_of_getElem f3
    have f4 : ((((l.heap ++ [some ({ element := v, next := none, prev := none } : Node α)]).set r
        (some { element := xr, next := some l.heap.length,
                prev := (ps₁h.getLast?).or none })).set l.heap.length
        (some { element := v, next := none, prev := some r })).set l.heap.length
        (some { element := v, next := some q, prev := some r }))[q]? =
        some (some { element := x, next := (ps₂.head?).or none, prev := some r }) := by
      rw [List.getElem?_set_ne hq_ne_t.symm, List.getElem?_set_ne hq_ne_t.symm,
        List.getElem?_set_ne hq_ne_r.symm, List.getElem?_append, if_pos hq_lt]
      exact hq_node
    have e_f4 := readNode_of_getElem f4
    have hr_lt0 : r <
        (l.heap ++ [some ({ element := v, next := none, prev := none } : Node α)]).length := by
      simp only [List.length_append, List.length_singleton]; omega
    have hq_lt0 : q <
        (l.heap ++ [some ({ element := v, next := none, prev := none } : Node α)]).length := by
      simp only [List.length_append, List.length_singleton]; omega
    simp only [CursorMut.insert_before, Node.new, e_q, writeNode, e_f1, e_f2, e_f3, e_f4]
    refine ⟨⟨?_, ?_, ?_, ?_, ?_⟩, trivial⟩
    · rw [List.append_assoc, List.append_assoc,
        chainSeg_append_iff _ _ _ _ _ _ _ hlenh]
      constructor
      · refine chainSeg_set_of_not_mem _ hq_notin1 (chainSeg_set_of_not_mem _ ht_notin1
          (chainSeg_set_of_not_mem _ ht_notin1 (chainSeg_set_of_not_mem _ hr_notin1
          (chainSeg_heap_grow _ ?_))))
        simpa using hc1a
      · simp only [List.singleton_append, List.head?_cons, Option.or_some,
          List.getLast?_singleton]
        rw [chainSeg_cons_iff]
        constructor
        · rw [List.getElem?_set_ne hq_ne_r, List.getElem?_set_ne hr_ne_t.symm,
            List.getElem?_set_ne hr_ne_t.symm, List.getElem?_set_self hr_lt0]
          simp
        · rw [chainSeg_cons_iff]
          constructor
          · rw [List.getElem?_set_ne hq_ne_t,
              List.getElem?_set_self (by simpa using hlen0)]
            simp
          · rw [chainSeg_cons_iff]
            constructor
            · rw [List.getElem?_set_self (by simpa using hq_lt0)]
            · refine chainSeg_set_of_not_mem _ hq_notin2 (chainSeg_set_of_not_mem _ ht_notin2
                (chainSeg_set_of_not_mem _ ht_notin2 (chainSeg_set_of_not_mem _ hr_notin2
                (chainSeg_heap_grow _ hc2.2))))
    · rw [hh, List.head?_append_of_ne_nil (ps₁h ++ [r]) (by simp),
        List.head?_append_of_ne_nil (ps₁h ++ [r]) (by simp)]
    · rw [ht, List.getLast?_append_cons, List.getLast?_append_cons,
        List.getLast?_cons_cons]
    · simp only [List.length_append, List.length_cons]
      simp only [List.length_append, List.length_cons] at hl
      omega
    · have : ((ps₁h ++ [r]) ++ List.length l.heap :: q :: ps₂).Nodup ↔
          (List.length l.heap :: ((ps₁h ++ [r]) ++ q :: ps₂)).Nodup :=
        List.nodup_middle
      rw [this, List.nodup_cons]
      refine ⟨?_, hn⟩
      intro hmem
      rcases List.mem_append.mp hmem with hmem | hmem
      · rcases List.mem_append.mp hmem with hmem | hmem
        · exact ht_notin1 hmem
        · have heq : List.length l.heap = r := by simpa using hmem
          exact hr_ne_t heq.symm
      · rcases List.mem_cons.mp hmem with hmem | hmem
        · exact hq_ne_t hmem.symm
        · exact ht_notin2 hmem

theorem insert_after_on_node [Inhabited α] {l : LinkedList α}
    {ps₁ ps₂ : List Nat} {xs₁ xs₂ : List α} {q : Nat} {x : α}
    (hr : rep l (ps₁ ++ q :: ps₂) (xs₁ ++ x :: xs₂))
    (hlen : ps₁.length = xs₁.length) (v : α) (i : Nat) :
    rep (CursorMut.insert_after l i (some q) v).1
        (ps₁ ++ q :: l.heap.length :: ps₂) (xs₁ ++ x :: v :: xs₂) ∧
    (CursorMut.insert_after l i (some q) v).2 = i := by
  have hc := hr.chain
  rw [chainSeg_append_iff _ _ _ _ _ _ _ hlen] at hc
  obtain ⟨hc1, hc2⟩ := hc
  have hq_node := hc2.1
  cases ps₂ with
  | nil =>
      obtain rfl : xs₂ = [] := by
        have := chainSeg_length_eq hc2
        exact List.length_eq_zero.mp (by simpa using this.symm)
      simp only [List.head?_nil, Option.none_or] at hq_node
      have e_q := readNode_of_getElem hq_node
      simp only [CursorMut.insert_after, e_q]
      constructor
      · have := rep_push_back hr v
        have hlist : (ps₁ ++ [q]) ++ [l.heap.length] = ps₁ ++ [q, l.heap.length] := by
          simp
        have hlist2 : (xs₁ ++ [x]) ++ [v] = xs₁ ++ [x, v] := by simp
        rw [hlist, hlist2] at this
        exact this
      · trivial
  | cons s ps₂ =>
      cases xs₂ with
      | nil => exact absurd hc2.2 (by simp [chainSeg])
      | cons y ys =>
          simp only [List.head?_cons, Option.or_some] at hq_node
          have e_q := readNode_of_getElem hq_node
          have hs_node := hc2.2.1
          -- distinctness and bounds
          have hn := hr.nodup
          have hq_lt : q < l.heap.length := (List.getElem?_eq_some.mp hq_node).1
          have hs_lt : s < l.heap.length := (List.getElem?_eq_some.mp hs_node).1
          have hq_ne_t : q ≠ l.heap.length := Nat.ne_of_lt hq_lt
          have hs_ne_t : s ≠ l.heap.length := Nat.ne_of_lt hs_lt
          have hmid := List.nodup_cons.mp (List.nodup_middle.mp hn)
          have hn2 := hmid.2
          have hmid2 := List.nodup_cons.mp (List.nodup_middle.mp hn2)
          have hq_notin1 : q ∉ ps₁ := fun e =>
            hmid.1 (List.mem_append.mpr (Or.inl e))
          have hq_ne_s : q ≠ s := fun e =>
            hmid.1 (List.mem_append.mpr (Or.inr (e ▸ List.mem_cons_self _ _)))
          have hq_notin2 : q ∉ ps₂ := fun e =>
            hmid.1 (List.mem_append.mpr (Or.inr (List.mem_cons_of_mem _ e)))
          have hs_notin1 : s ∉ ps₁ := fun e =>
            hmid2.1 (List.mem_append.mpr (Or.inl e))
          have hs_notin2 : s ∉ ps₂ := fun e =>
            hmid2.1 (List.mem_append.mpr (Or.inr e))
          have ht_notin1 : List.length l.heap ∉ ps₁ := fun e =>
            absurd (chainSeg_mem_lt hc1 _ e) (lt_irrefl _)
          have ht_notin2 : List.length l.heap ∉ ps₂ := fun e =>
            absurd (chainSeg_mem_lt hc2.2.2 _ e) (lt_irrefl _)
          -- read/write computations along the splice
          have f1 : (l.heap ++ [some ({ element := v, next := none, prev := none } : Node α)])[q]? =
              some (some { element := x, next := some s,
                           prev := (ps₁.getLast?).or none }) := by
            rw [List.getElem?_append, if_pos hq_lt]; exact hq_node
          have e_f1 := readNode_of_getElem f1
          have f2 : ((l.heap ++ [some ({ element := v, next := none, prev := none } : Node α)]).set q
              (some { element := x, next := some l.heap.length,
                      prev := (ps₁.getLast?).or none }))[l.heap.length]? =
              some (some ({ element := v, next := none, prev := none } : Node α)) := by
            rw [List.getElem?_set_ne hq_ne_t, List.getElem?_concat_length]
          have e_f2 := readNode_of_getElem f2
          have hlen0 : l.heap.length <
              (l.heap ++ [some ({ element := v, next := none, prev := none } : Node α)]).length := by
            simp
          have f3 : (((l.heap ++ [some ({ element := v, next := none, prev := none } : Node α)]).set q
              (some { element := x, next := some l.heap.length,
                      prev := (ps₁.getLast?).or none })).set l.heap.length
              (some { element := v, next := none, prev := some q }))[l.heap.length]? =
              some (some { element := v, next := none, prev := some q }) := by
            rw [List.getElem?_set_self (by simpa using hlen0)]
          have e_f3 := readNode_of_getElem f3
          have f4 : ((((l.heap ++ [some ({ element := v, next := none, prev := none } : Node α)]).set q
              (some { element := x, next := some l.heap.length,
                      prev := (ps₁.getLast?).or none })).set l.heap.length
              (some { element := v, next := none, prev := some q })).set l.heap.length
              (some { element := v, next := some s, prev := some q }))[s]? =
              some (some { element := y, next := (ps₂.head?).or none, prev := some q }) := by
            rw [List.getElem?_set_ne hs_ne_t.symm, List.getElem?_set_ne hs_ne_t.symm,
              List.getElem?_set_ne hq_ne_s, List.getElem?_append, if_pos hs_lt]
            exact hs_node
          have e_f4 := readNode_of_getElem f4
          have hq_lt0 : q <
              (l.heap ++ [some ({ element := v, next := none, prev := none } : Node α)]).length := by
            simp only [List.length_append, List.length_singleton]; omega
          have hs_lt0 : s <
              (l.heap ++ [some ({ element := v, next := none, prev := none } : Node α)]).length := by
            simp only [List.length_append, List.length_singleton]; omega
          simp only [CursorMut.insert_after, Node.new, e_q, writeNode, e_f1, e_f2, e_f3, e_f4]
          refine ⟨⟨?_, ?_, ?_, ?_, ?_⟩, trivial⟩
          · rw [chainSeg_append_iff _ _ _ _ _ _ _ hlen]
            constructor
            · refine chainSeg_set_of_not_mem _ hs_notin1 (chainSeg_set_of_not_mem _ ht_notin1
                (chainSeg_set_of_not_mem _ ht_notin1 (chainSeg_set_of_not_mem _ hq_notin1
                (chainSeg_heap_grow _ ?_))))
              simpa using hc1
            · rw [chainSeg_cons_iff]
              constructor
              · rw [List.getElem?_set_ne hq_ne_s.symm, List.getElem?_set_ne hq_ne_t.symm,
                  List.getElem?_set_ne hq_ne_t.symm, List.getElem?_set_self hq_lt0]
                simp
              · rw [chainSeg_cons_iff]
                constructor
                · rw [List.getElem?_set_ne hs_ne_t,
                    List.getElem?_set_self (by simpa using hlen0)]
                  simp
                · rw [chainSeg_cons_iff]
                  constructor
                  · rw [List.getElem?_set_self (by simpa using hs_lt0)]
                  · refine chainSeg_set_of_not_mem _ hs_notin2 (chainSeg_set_of_not_mem _ ht_notin2
                      (chainSeg_set_of_not_mem _ ht_notin2 (chainSeg_set_of_not_mem _ hq_notin2
                      (chainSeg_heap_grow _ hc2.2.2))))
          · rw [hr.head_eq, List.head?_append, List.head?_append]
            rfl
          · rw [hr.tail_eq, List.getLast?_append_cons, List.getLast?_append_cons,
              List.getLast?_cons_cons, List.getLast?_cons_cons, List.getLast?_cons_cons]
          · have hl := hr.len_eq
            simp only [List.length_append, List.length_cons]
            simp only [List.length_append, List.length_cons] at hl
            omega
          · have hlist : ps₁ ++ q :: List.length l.heap :: s :: ps₂ =
                (ps₁ ++ [q]) ++ List.length l.heap :: s :: ps₂ := by
              simp
            have hlist2 : (ps₁ ++ [q]) ++ s :: ps₂ = ps₁ ++ q :: s :: ps₂ := by
              simp
            rw [hlist, List.nodup_middle, List.nodup_cons, hlist2]
            refine ⟨?_, hn⟩
            intro hmem
            rcases List.mem_append.mp hmem with hmem | hmem
            · exact ht_notin1 hmem
            · rcases List.mem_cons.mp hmem with hmem | hmem
              · exact hq_ne_t hmem.symm
              · rcases List.mem_cons.mp hmem with hmem | hmem
                · exact hs_ne_t hmem.symm
                · exact ht_notin2 hmem

theorem rep_fromSeq_one_two :
    rep (LinkedList.fromSeq [1, 2] : LinkedList Nat) [0, 1] [1, 2] :=
  ⟨⟨rfl, rfl, trivial⟩, rfl, rfl, rfl, by decide⟩

/-- C1: on `[1,2,3]` with the cursor on the head node, `delete()` returns the
element 1, rewires the list to `[2,3]`, advances the cursor to the node holding
2 at index 0 — but the resulting `len` field is still 3, because
`CursorMut::delete` in the source never decrements `list.len`.  This refutes
the claim's "decrements the list's length by one" conjunct; everything else
the claim states is visible in the other conjuncts below. -/
theorem c1_delete_misses_len_decrement :
    (CursorMut.delete (LinkedList.fromSeq [1, 2, 3] : LinkedList Nat)
      (move_next none 0 (LinkedList.fromSeq [1, 2, 3] : LinkedList Nat)).2
      (move_next none 0 (LinkedList.fromSeq [1, 2, 3] : LinkedList Nat)).1).1 = some 1 ∧
    drainFront 2
      (CursorMut.delete (LinkedList.fromSeq [1, 2, 3] : LinkedList Nat) 0 (some 0)).2.1 = [2, 3] ∧
    Cursor.cur (CursorMut.delete (LinkedList.fromSeq [1, 2, 3] : LinkedList Nat) 0 (some 0)).2.1
      (CursorMut.delete (LinkedList.fromSeq [1, 2, 3] : LinkedList Nat) 0 (some 0)).2.2.2 = some 2 ∧
    Cursor.idx (CursorMut.delete (LinkedList.fromSeq [1, 2, 3] : LinkedList Nat) 0 (some 0)).2.2.2
      (CursorMut.delete (LinkedList.fromSeq [1, 2, 3] : LinkedList Nat) 0 (some 0)).2.2.1 = some 0 ∧
    (CursorMut.delete (LinkedList.fromSeq [1, 2, 3] : LinkedList Nat) 0 (some 0)).2.1.len = 3 := by
  decide

/-- C2: the length invariant is broken by `delete`.  On the one-element list
built by `push_back 1`, deleting the head via a cursor leaves `len = 1`
although no node is reachable from `head` (which is `none`), so
`len() = count of reachable nodes` fails, and `is_empty()` is `false`
while both `front()` and `back()` report no value. -/
theorem c2_len_invariant_broken_by_delete :
    (CursorMut.delete (LinkedList.fromSeq [1] : LinkedList Nat) 0 (some 0)).2.1.len = 1 ∧
    (CursorMut.delete (LinkedList.fromSeq [1] : LinkedList Nat) 0 (some 0)).2.1.head = none ∧
    (CursorMut.delete (LinkedList.fromSeq [1] : LinkedList Nat) 0 (some 0)).2.1.tail = none ∧
    drainFront 1 (CursorMut.delete (LinkedList.fromSeq [1] : LinkedList Nat) 0 (some 0)).2.1 = [] ∧
    (CursorMut.delete (LinkedList.fromSeq [1] : LinkedList Nat) 0 (some 0)).2.1.is_empty = false ∧
    LinkedList.front (CursorMut.delete (LinkedList.fromSeq [1] : LinkedList Nat) 0 (some 0)).2.1 = none ∧
    LinkedList.back (CursorMut.delete (LinkedList.fromSeq [1] : LinkedList Nat) 0 (some 0)).2.1 = none := by
  decide

/-- C3: cursor movement over a well-formed list with pointer list `ps` and
elements `xs` (`n = xs.length`): `move_next` from off-list lands on the head
at index 0 (so it stays off-list exactly when the list is empty); from the
node at position `i` it lands on the node at position `i+1`, or off-list when
there is none; iterating `move_next` from the initial off-list cursor visits
positions `0..n-1` (with the matching elements and indices) and is off-list
exactly at multiples of `n+1`, cycling indefinitely with exactly one off-list
step between the two boundaries; `move_prev` is symmetric, landing on the
tail with index `len - 1` from off-list and following `prev` links
otherwise. -/
theorem c3_cursor_movement [Inhabited α] {l : LinkedList α} {ps : List Nat}
    {xs : List α} (hr : rep l ps xs) :
    (∀ i, move_next none i l = (ps.head?, 0)) ∧
    (xs = [] → ∀ i, move_next none i l = (none, 0)) ∧
    (∀ i q, ps[i]? = some q → move_next (some q) i l = (ps[i + 1]?, i + 1)) ∧
    (∀ k, 1 ≤ k → k ≤ xs.length + 1 → nextSteps l k = (ps[k - 1]?, k - 1)) ∧
    (∀ k, (nextSteps l k).1 =
      if k % (xs.length + 1) = 0 then none else ps[k % (xs.length + 1) - 1]?) ∧
    (∀ k, Cursor.cur l (nextSteps l k).1 =
      if k % (xs.length + 1) = 0 then none else xs[k % (xs.length + 1) - 1]?) ∧
    (∀ i, move_prev none i l = (ps.getLast?, xs.length - 1)) ∧
    (∀ i q, ps[i]? = some q →
      move_prev (some q) i l = ((if i = 0 then none else ps[i - 1]?), i - 1)) := by
  refine ⟨rep_move_next_off hr, ?_, rep_move_next_at hr,
    nextSteps_first_pass hr, nextSteps_fst_formula hr, nextSteps_cur_formula hr,
    rep_move_prev_off hr, rep_move_prev_at hr⟩
  intro hxs i
  obtain rfl := hxs
  obtain ⟨rfl, -, -, -⟩ := rep_nil_inv hr
  exact rep_move_next_off hr i

/-- Witness for C3 at the concrete list `[1,2]` (pointer list `[0,1]`):
stepping from the node at position 0 lands on position 1. -/
theorem c3_witness :
    move_next (some 0) 0 (LinkedList.fromSeq [1, 2] : LinkedList Nat) = (some 1, 1) :=
  (c3_cursor_movement rep_fromSeq_one_two).2.2.1 0 0 rfl

/-- C4: for a mutable cursor, `insert_before`/`insert_after` when off-list are
exactly `push_front`/`push_back` with the index untouched; when on the node at
position `|ps₁|` (pointer `q`, element `x`), `insert_before` splices the fresh
node immediately before it (the list now holds `xs₁ ++ v :: x :: xs₂`, so the
length grows by one and the cursor's node `q` sits one position later) and
returns index `i + 1`, while `insert_after` splices immediately after it
(list `xs₁ ++ x :: v :: xs₂`) and returns the index unchanged, the cursor
still pointing at `q`. -/
theorem c4_cursor_insert [Inhabited α] {l : LinkedList α} {ps : List Nat}
    {xs : List α} (hr : rep l ps xs) (v : α) :
    (∀ i, CursorMut.insert_before l i none v = (l.push_front v, i)) ∧
    (∀ i, CursorMut.insert_after l i none v = (l.push_back v, i)) ∧
    (∀ (ps₁ ps₂ : List Nat) (xs₁ xs₂ : List α) (q : Nat) (x : α) (i : Nat),
      ps = ps₁ ++ q :: ps₂ → xs = xs₁ ++ x :: xs₂ → ps₁.length = xs₁.length →
      (rep (CursorMut.insert_before l i (some q) v).1
          (ps₁ ++ l.heap.length :: q :: ps₂) (xs₁ ++ v :: x :: xs₂) ∧
        (CursorMut.insert_before l i (some q) v).2 = i + 1) ∧
      (rep (CursorMut.insert_after l i (some q) v).1
          (ps₁ ++ q :: l.heap.length :: ps₂) (xs₁ ++ x :: v :: xs₂) ∧
        (CursorMut.insert_after l i (some q) v).2 = i)) := by
  refine ⟨fun i => rfl, fun i => rfl, ?_⟩
  intro ps₁ ps₂ xs₁ xs₂ q x i hps hxs hlen
  subst hps
  subst hxs
  exact ⟨insert_before_on_node hr hlen v i, insert_after_on_node hr hlen v i⟩

/-- Witness for C4 at the concrete list `[1,2]`: inserting 5 before the node
at position 1 returns index 2, and inserting after it leaves the index at 1. -/
theorem c4_witness :
    (CursorMut.insert_before (LinkedList.fromSeq [1, 2] : LinkedList Nat)
        1 (some 1) 5).2 = 2 ∧
    (CursorMut.insert_after (LinkedList.fromSeq [1, 2] : LinkedList Nat)
        1 (some 1) 5).2 = 1 :=
  ⟨((c4_cursor_insert rep_fromSeq_one_two 5).2.2 [0] [] [1] [] 1 2 1
      rfl rfl rfl).1.2,
   ((c4_cursor_insert rep_fromSeq_one_two 5).2.2 [0] [] [1] [] 1 2 1
      rfl rfl rfl).2.2⟩

/-- C5: FIFO discipline — building a list by `push_back`-ing the elements of
any finite sequence in order and then popping with `pop_front` until empty
(the list's `len` many pops) yields exactly the pushed sequence, and one more
`pop_front` on the resulting empty list yields nothing. -/
theorem c5_fifo_push_back_pop_front [Inhabited α] (xs : List α) :
    drainFront (LinkedList.fromSeq xs).len (LinkedList.fromSeq xs) = xs := by
  obtain ⟨ps, hr⟩ := rep_fromSeq xs
  rw [hr.len_eq]
  exact drainFront_of_rep xs _ _ hr

/-- C6: round-trip — building a list by repeated `push_back` and draining it
front to back through the owning iterator (`IntoIter::next`, which is
`pop_front`) reproduces the original sequence exactly. -/
theorem c6_roundtrip_into_iter [Inhabited α] (xs : List α) :
    collectIntoIter (LinkedList.fromSeq xs).len { list := LinkedList.fromSeq xs } = xs := by
  rw [collectIntoIter_eq_drainFront]
  obtain ⟨ps, hr⟩ := rep_fromSeq xs
  rw [hr.len_eq]
  exact drainFront_of_rep xs _ _ hr

/-- C9: construction from a sequence (`From<[T; N]>` and `FromIterator`, both
of which `push_back` each element in input order onto a default list) yields a
list whose `len` is the input length and which drains front-to-back to exactly
the input elements in their original order. -/
theorem c9_from_sequence [Inhabited α] (xs : List α) :
    (LinkedList.fromSeq xs).len = xs.length ∧
    drainFront xs.length (LinkedList.fromSeq xs) = xs := by
  obtain ⟨ps, hr⟩ := rep_fromSeq xs
  exact ⟨hr.len_eq, drainFront_of_rep xs _ _ hr⟩

/-- C8: every might-not-have-a-value outcome is an absent result with the
state unchanged: on an empty (well-formed) list `pop_front`/`pop_back`
return no value and the very same list, and `front`/`back` return no value;
on an off-list cursor, `delete` returns no value leaving the list, index and
position unchanged, and `current`/`index` report no value. -/
theorem c8_absent_results [Inhabited α] {l : LinkedList α} {ps : List Nat}
    (hr : rep l ps ([] : List α)) :
    l.pop_front = (none, l) ∧ l.pop_back = (none, l) ∧
    l.front = none ∧ l.back = none ∧
    (∀ (l2 : LinkedList α) (j : Nat),
      CursorMut.delete l2 j none = (none, l2, j, none) ∧
      Cursor.cur l2 none = none ∧ Cursor.idx none j = none) := by
  obtain ⟨-, hh, ht, -⟩ := rep_nil_inv hr
  refine ⟨pop_front_nil hr, pop_back_nil hr, ?_, ?_, fun l2 j => ⟨rfl, rfl, rfl⟩⟩
  · simp [LinkedList.front, hh]
  · simp [LinkedList.back, ht]

/-- Witness for C8 at the concrete empty list. -/
theorem c8_witness :
    (LinkedList.new : LinkedList Nat).pop_front = (none, LinkedList.new) :=
  (c8_absent_results (rep_new (α := Nat))).1

/-- C10: `move_prev` never underflows the index: from off-list it goes to the
tail with index `len - 1` computed by saturating (truncated) subtraction, so
on an empty list the index becomes 0, the cursor stays off-list and `index()`
still reports no value; from the node at position 0 the index saturates at 0
and the cursor moves off-list. -/
theorem c10_move_prev_saturates [Inhabited α] {l : LinkedList α} {ps : List Nat}
    {xs : List α} (hr : rep l ps xs) :
    (∀ i, move_prev none i l = (ps.getLast?, xs.length - 1)) ∧
    (xs = [] → ∀ i, move_prev none i l = (none, 0) ∧
      Cursor.idx (move_prev none i l).1 (move_prev none i l).2 = none) ∧
    (∀ q, ps[0]? = some q → move_prev (some q) 0 l = (none, 0)) := by
  refine ⟨rep_move_prev_off hr, ?_, ?_⟩
  · intro hxs i
    obtain rfl := hxs
    obtain ⟨rfl, -, -, -⟩ := rep_nil_inv hr
    constructor
    · exact rep_move_prev_off hr i
    · rw [rep_move_prev_off hr i]
      rfl
  · intro q hq
    rw [rep_move_prev_at hr 0 q hq]
    simp

/-- Witness for C10 at the concrete list `[1,2]`: `move_prev` from the head
node saturates the index at 0 and goes off-list. -/
theorem c10_witness :
    move_prev (some 0) 0 (LinkedList.fromSeq [1, 2] : LinkedList Nat) = (none, 0) :=
  (c10_move_prev_saturates rep_fromSeq_one_two).2.2 0 rfl

/-- C7: the borrowing iterator over `[1,2,3,4,5]` under the call sequence
next, next, next_back, next_back, next yields exactly `1, 2, 5, 4, 3`; after
those five steps the shared remaining-count is 0 and both `next` and
`next_back` report exhausted.  In general, once the remaining-count is 0 both
directions yield nothing and leave the iterator unchanged, and every yielding
step decrements the shared count by one, so the two ends can never cross or
double-yield the middle element. -/
theorem c7_iter_alternating :
    ((Iter.next (LinkedList.fromSeq [1, 2, 3, 4, 5] : LinkedList Nat).heap
        (LinkedList.fromSeq [1, 2, 3, 4, 5] : LinkedList Nat).iter).1 = some 1 ∧
      (Iter.next (LinkedList.fromSeq [1, 2, 3, 4, 5] : LinkedList Nat).heap
        (Iter.next (LinkedList.fromSeq [1, 2, 3, 4, 5] : LinkedList Nat).heap
          (LinkedList.fromSeq [1, 2, 3, 4, 5] : LinkedList Nat).iter).2).1 = some 2 ∧
      (Iter.next_back (LinkedList.fromSeq [1, 2, 3, 4, 5] : LinkedList Nat).heap
        (Iter.next (LinkedList.fromSeq [1, 2, 3, 4, 5] : LinkedList Nat).heap
          (Iter.next (LinkedList.fromSeq [1, 2, 3, 4, 5] : LinkedList Nat).heap
            (LinkedList.fromSeq [1, 2, 3, 4, 5] : LinkedList Nat).iter).2).2).1 = some 5 ∧
      (Iter.next_back (LinkedList.fromSeq [1, 2, 3, 4, 5] : LinkedList Nat).heap
        (Iter.next_back (LinkedList.fromSeq [1, 2, 3, 4, 5] : LinkedList Nat).heap
          (Iter.next (LinkedList.fromSeq [1, 2, 3, 4, 5] : LinkedList Nat).heap
            (Iter.next (LinkedList.fromSeq [1, 2, 3, 4, 5] : LinkedList Nat).heap
              (LinkedList.fromSeq [1, 2, 3, 4, 5] : LinkedList Nat).iter).2).2).2).1 = some 4 ∧
      (Iter.next (LinkedList.fromSeq [1, 2, 3, 4, 5] : LinkedList Nat).heap
        (Iter.next_back (LinkedList.fromSeq [1, 2, 3, 4, 5] : LinkedList Nat).heap
          (Iter.next_back (LinkedList.fromSeq [1, 2, 3, 4, 5] : LinkedList Nat).heap
            (Iter.next (LinkedList.fromSeq [1, 2, 3, 4, 5] : LinkedList Nat).heap
              (Iter.next (LinkedList.fromSeq [1, 2, 3, 4, 5] : LinkedList Nat).heap
                (LinkedList.fromSeq [1, 2, 3, 4, 5] : LinkedList Nat).iter).2).2).2).2).1 = some 3 ∧
      (Iter.next (LinkedList.fromSeq [1, 2, 3, 4, 5] : LinkedList Nat).heap
        (Iter.next_back (LinkedList.fromSeq [1, 2, 3, 4, 5] : LinkedList Nat).heap
          (Iter.next_back (LinkedList.fromSeq [1, 2, 3, 4, 5] : LinkedList Nat).heap
            (Iter.next (LinkedList.fromSeq [1, 2, 3, 4, 5] : LinkedList Nat).heap
              (Iter.next (LinkedList.fromSeq [1, 2, 3, 4, 5] : LinkedList Nat).heap
                (LinkedList.fromSeq [1, 2, 3, 4, 5] : LinkedList Nat).iter).2).2).2).2).2.len = 0 ∧
      (Iter.next (LinkedList.fromSeq [1, 2, 3, 4, 5] : LinkedList Nat).heap
        (Iter.next (LinkedList.fromSeq [1, 2, 3, 4, 5] : LinkedList Nat).heap
          (Iter.next_back (LinkedList.fromSeq [1, 2, 3, 4, 5] : LinkedList Nat).heap
            (Iter.next_back (LinkedList.fromSeq [1, 2, 3, 4, 5] : LinkedList Nat).heap
              (Iter.next (LinkedList.fromSeq [1, 2, 3, 4, 5] : LinkedList Nat).heap
                (Iter.next (LinkedList.fromSeq [1, 2, 3, 4, 5] : LinkedList Nat).heap
                  (LinkedList.fromSeq [1, 2, 3, 4, 5] : LinkedList Nat).iter).2).2).2).2).2).1 = none ∧
      (Iter.next_back (LinkedList.fromSeq [1, 2, 3, 4, 5] : LinkedList Nat).heap
        (Iter.next (LinkedList.fromSeq [1, 2, 3, 4, 5] : LinkedList Nat).heap
          (Iter.next_back (LinkedList.fromSeq [1, 2, 3, 4, 5] : LinkedList Nat).heap
            (Iter.next_back (LinkedList.fromSeq [1, 2, 3, 4, 5] : LinkedList Nat).heap
              (Iter.next (LinkedList.fromSeq [1, 2, 3, 4, 5] : LinkedList Nat).heap
                (Iter.next (LinkedList.fromSeq [1, 2, 3, 4, 5] : LinkedList Nat).heap
                  (LinkedList.fromSeq [1, 2, 3, 4, 5] : LinkedList Nat).iter).2).2).2).2).2).1 = none) ∧
    (∀ (β : Type) [Inhabited β] (h : Heap β) (it : Iter β), it.len = 0 →
      Iter.next h it = (none, it) ∧ Iter.next_back h it = (none, it)) ∧
    (∀ (β : Type) [Inhabited β] (h : Heap β) (it : Iter β) (node : Nat),
      (it.head = some node → (Iter.next h it).2.len = it.len - 1 ∨ it.len = 0) ∧
      (it.tail = some node → (Iter.next_back h it).2.len = it.len - 1 ∨ it.len = 0)) := by
  refine ⟨by decide, ?_, ?_⟩
  · intro β _ h it hlen
    constructor <;> simp [Iter.next, Iter.next_back, hlen]
  · intro β _ h it node
    constructor
    · intro hhead
      by_cases hlen : it.len = 0
      · exact Or.inr hlen
      · exact Or.inl (by simp [Iter.next, hlen, hhead])
    · intro htail
      by_cases hlen : it.len = 0
      · exact Or.inr hlen
      · exact Or.inl (by simp [Iter.next_back, hlen, htail])

/-- Witness for C7: on an exhausted iterator both directions yield nothing. -/
theorem c7_witness :
    Iter.next ([] : Heap Nat) { head := none, tail := none, len := 0 } =
      (none, { head := none, tail := none, len := 0 }) :=
  (c7_iter_alternating.2.1 Nat [] { head := none, tail := none, len := 0 } rfl).1
